import Mathlib

/-!
Verification of the persistence/query layer (the Storage Adapter) of the
todo application, embedded from `src/todo-storage.js`.

The adapter stores an ordered list of task records.  Each operation reads
the current collection (`getLocalStorage`), transforms it, and writes it
back (`setLocalStorage`).  We model the collection as a `List Todo` and
each operation as a pure function from the collection (plus the
operation's arguments) to a result together with the new collection.
`Promise` resolution/rejection and thrown errors are modelled with
`Except`: `Except.ok` for a resolved promise and `Except.error` for a
rejection or a thrown error.  `Date.now()` is an external input, so
`addTodo` takes the value it returns (`now`) as an explicit argument.
-/

deriving instance DecidableEq for Except

namespace TodoStorage

/-- A task record, as created by `addTodo` in `todo-storage.js`:
`{ title, id: Date.now(), completed: false }`. -/
structure Todo where
  id : Nat
  title : String
  completed : Bool
deriving DecidableEq

/-- Whitespace removed by JavaScript `String.prototype.trim`: the
ECMAScript WhiteSpace production — TAB (9), VT (11), FF (12),
ZWNBSP (0xFEFF) and every Unicode Space_Separator code point (0x20,
0xA0, 0x1680, 0x2000–0x200A, 0x202F, 0x205F, 0x3000) — plus the
LineTerminator production — LF (10), CR (13), LS (0x2028),
PS (0x2029). -/
def isJsWhitespace (c : Char) : Bool :=
  c = ' ' || c = Char.ofNat 9 || c = Char.ofNat 10 || c = Char.ofNat 11 ||
  c = Char.ofNat 12 || c = Char.ofNat 13 || c = Char.ofNat 160 ||
  c = Char.ofNat 0x1680 ||
  (0x2000 ≤ c.toNat && c.toNat ≤ 0x200A) ||
  c = Char.ofNat 0x2028 || c = Char.ofNat 0x2029 || c = Char.ofNat 0x202F ||
  c = Char.ofNat 0x205F || c = Char.ofNat 0x3000 || c = Char.ofNat 0xFEFF

/-- JavaScript `title.trim()`, on the character list of the string. -/
def jsTrim (s : List Char) : List Char :=
  ((s.dropWhile isJsWhitespace).reverse.dropWhile isJsWhitespace).reverse

/-- The message of the error thrown by `addTodo` on an invalid title. -/
def addTodoError : String := "Cannot create a todo item with an empty title."

/-- `addTodo(title)` from `todo-storage.js`, with the value of
`Date.now()` passed in as `now`.  The new item is
`{ title, id: Date.now(), completed: false }`; if the title trims to the
empty string the call throws (the collection is untouched), otherwise the
item is pushed at the end and the collection is saved. -/
def addTodo (title : String) (now : Nat) (todos : List Todo) :
    Except String Todo × List Todo :=
  let item : Todo := ⟨now, title, false⟩
  if (jsTrim title.data).length = 0 then
    (Except.error addTodoError, todos)
  else
    (Except.ok item, todos ++ [item])

/-- A partial-update object as passed to `updateTodo`: the `id` of the
record to update plus any subset of the remaining fields
(`for ( k in update ) item[ k ] = update[ k ]` copies exactly the fields
present on the object). -/
structure Update where
  id : Nat
  title : Option String
  completed : Option Bool
deriving DecidableEq

/-- The effect of `for ( k in update ) item[ k ] = update[ k ]` on a
matched record: every field present on `update` overwrites the record's
field (the `id` key is always present and equals the matched id). -/
def mergeUpdate (u : Update) (t : Todo) : Todo :=
  ⟨u.id, u.title.getD t.title, u.completed.getD t.completed⟩

/-- The scan loop of `updateTodo`: walk the collection, merge the update
into the first record whose `id` matches, and stop (`break`).  Returns
the updated record and the updated collection, or `none` when no record
matches. -/
def updateFirst (u : Update) : List Todo → Option (Todo × List Todo)
  | [] => none
  | t :: ts =>
    if t.id = u.id then
      let merged := mergeUpdate u t
      some (merged, merged :: ts)
    else
      match updateFirst u ts with
      | some (item, rest) => some (item, t :: rest)
      | none => none

/-- `updateTodo(update)` from `todo-storage.js`: on a match the merged
item is saved and the promise resolves with it; otherwise nothing is
saved and the promise is rejected with the update object. -/
def updateTodo (u : Update) (todos : List Todo) :
    Except Update Todo × List Todo :=
  match updateFirst u todos with
  | some (item, updated) => (Except.ok item, updated)
  | none => (Except.error u, todos)

/-- `removeTodo(id)` from `todo-storage.js`:
`todos.filter( todo => todo.id !== id )`, saved back unconditionally;
the promise always resolves. -/
def removeTodo (i : Nat) (todos : List Todo) : List Todo :=
  todos.filter (fun t => t.id != i)

/-- A query object for `find`: any subset of the record fields, each
compared with strict equality. -/
structure Query where
  id : Option Nat
  title : Option String
  completed : Option Bool
deriving DecidableEq

/-- The default query (`query || ( query = \x7b\x7d )`): no constraints. -/
def emptyQuery : Query := ⟨none, none, none⟩

/-- The filter callback of `find`: `for ( let k in query )` — every field
present on the query must strictly equal the record's field. -/
def matchesQuery (q : Query) (t : Todo) : Bool :=
  (match q.id with | none => true | some v => t.id == v) &&
  (match q.title with | none => true | some v => t.title == v) &&
  (match q.completed with | none => true | some v => t.completed == v)

/-- `find(query)` from `todo-storage.js`; the argument is optional. -/
def find (q : Option Query) (todos : List Todo) : List Todo :=
  todos.filter (matchesQuery (q.getD emptyQuery))

/-- The `{ total, completed, active }` object resolved by `count()`. -/
structure Counts where
  total : Nat
  completed : Nat
  active : Nat
deriving DecidableEq

/-- `count()` from `todo-storage.js`: `find()` with no query, then a loop
counting the records whose `completed` field is set;
`active = total - completed`. -/
def count (todos : List Todo) : Counts :=
  let found := find none todos
  let total := found.length
  let completed := found.foldl (fun acc t => if t.completed then acc + 1 else acc) 0
  ⟨total, completed, total - completed⟩

/-- The invariant claimed of the store: no persisted record has a title
that is empty or whitespace-only. -/
def titlesValid (todos : List Todo) : Prop :=
  ∀ t ∈ todos, (jsTrim t.title.data).length ≠ 0

instance (todos : List Todo) : Decidable (titlesValid todos) := by
  unfold titlesValid
  infer_instance

/-! ## Serialization

The write path of the adapter is
`localStorage.setItem( name, JSON.stringify( todos ) )` and the read path
is `JSON.parse( localStorage.getItem( name ) || '[]' )`.  The records are
the objects created by `addTodo` — property order `title`, `id`,
`completed`, with `title` a string, `id` an integer-valued number and
`completed` a boolean — so `JSON.stringify` produces
`[` object `,` … object `]` with each object
`\x7b"title":` string `,"id":` digits `,"completed":` `true`/`false` `\x7d`,
strings quoted and escaped per `QuoteJSONString`.  The serializer below
produces exactly that text; the parser implements `JSON.parse` on the
sub-grammar of JSON reachable through the write path (any record text of
that shape, with the full JSON string-escape repertoire).
-/

/-- The character of a decimal digit. -/
def digitChar (d : Nat) : Char := Char.ofNat (48 + d)

/-- Division loop producing the decimal digits of `n` in front of `acc`,
most significant first; the fuel only forces termination and any amount
of at least the number of digits yields the same result. -/
def natToCharsAux : Nat → Nat → List Char → List Char
  | 0, _, acc => acc
  | fuel + 1, n, acc =>
    if n < 10 then digitChar n :: acc
    else natToCharsAux fuel (n / 10) (digitChar (n % 10) :: acc)

/-- Decimal rendering of an integer-valued number, as `JSON.stringify`
prints it (most significant digit first, `0` for zero). -/
def natToChars (n : Nat) : List Char := natToCharsAux (n + 1) n []

/-- Lowercase hexadecimal digit character, as produced by the
`\uXXXX` escapes of `JSON.stringify`. -/
def hexChar (d : Nat) : Char :=
  if d < 10 then Char.ofNat (48 + d) else Char.ofNat (87 + d)

/-- `QuoteJSONString` escaping of one character: `"` and `\` are
backslash-escaped, the control characters backspace, tab, newline, form
feed and carriage return use their short escapes, the remaining control
characters use `\u00XX`, and every other character is emitted as is. -/
def escapeChar (c : Char) : List Char :=
  if c = '"' then ['\\', '"']
  else if c = '\\' then ['\\', '\\']
  else if c = Char.ofNat 8 then ['\\', 'b']
  else if c = Char.ofNat 9 then ['\\', 't']
  else if c = Char.ofNat 10 then ['\\', 'n']
  else if c = Char.ofNat 12 then ['\\', 'f']
  else if c = Char.ofNat 13 then ['\\', 'r']
  else if c.toNat < 32 then
    ['\\', 'u', '0', '0', hexChar (c.toNat / 16), hexChar (c.toNat % 16)]
  else [c]

/-- `QuoteJSONString` escaping of a whole string body. -/
def escapeChars : List Char → List Char
  | [] => []
  | c :: cs => escapeChar c ++ escapeChars cs

/-- A JSON string literal: quote, escaped body, quote. -/
def quoteChars (s : String) : List Char :=
  '"' :: (escapeChars s.data ++ ['"'])

/-- A JSON boolean literal. -/
def boolChars (b : Bool) : List Char :=
  if b then ['t', 'r', 'u', 'e'] else ['f', 'a', 'l', 's', 'e']

/-- The text between the opening brace and the title string: the key of
the first property created by `addTodo`. -/
def titleKeyChars : List Char := ['"', 't', 'i', 't', 'l', 'e', '"', ':']

/-- The separator and key before the id digits. -/
def idKeyChars : List Char := [',', '"', 'i', 'd', '"', ':']

/-- The separator and key before the completed literal. -/
def completedKeyChars : List Char :=
  [',', '"', 'c', 'o', 'm', 'p', 'l', 'e', 't', 'e', 'd', '"', ':']

/-- `JSON.stringify` of one record. -/
def serializeTodo (t : Todo) : List Char :=
  '{' :: (titleKeyChars ++ quoteChars t.title ++ idKeyChars ++
    natToChars t.id ++ completedKeyChars ++ boolChars t.completed ++ ['}'])

/-- The comma-separated record texts inside the array brackets. -/
def serializeItems : List Todo → List Char
  | [] => []
  | t :: ts =>
    serializeTodo t ++ (if ts.isEmpty then [] else [',']) ++ serializeItems ts

/-- `JSON.stringify( todos )`: the full serialized blob written by
`setLocalStorage`. -/
def serializeTodos (todos : List Todo) : String :=
  String.mk ('[' :: (serializeItems todos ++ [']']))

/-- The numeric value of a hexadecimal digit character
(`0`‥`9`, `a`‥`f`, `A`‥`F`). -/
def hexVal (c : Char) : Nat :=
  if c.toNat ≤ 57 then c.toNat - 48
  else if c.toNat ≤ 70 then c.toNat - 55
  else c.toNat - 87

/-- The character denoted by a short escape sequence (`\"`, `\\`, `\/`,
`\b`, `\t`, `\n`, `\f`, `\r`). -/
def decodeEscape (e : Char) : Option Char :=
  if e = '"' then some '"'
  else if e = '\\' then some '\\'
  else if e = '/' then some '/'
  else if e = 'b' then some (Char.ofNat 8)
  else if e = 't' then some (Char.ofNat 9)
  else if e = 'n' then some (Char.ofNat 10)
  else if e = 'f' then some (Char.ofNat 12)
  else if e = 'r' then some (Char.ofNat 13)
  else none

/-- Prepends a decoded character to the body of a string-parse result. -/
def consFst (c : Char) :
    Option (List Char × List Char) → Option (List Char × List Char)
  | some (cs, rest) => some (c :: cs, rest)
  | none => none

/-- Parses the body of a JSON string literal (the opening quote already
consumed) up to and including the closing quote, decoding escapes:
returns the decoded body and the remaining input. -/
def parseStringChars : List Char → Option (List Char × List Char)
  | [] => none
  | c :: rest =>
    if c = '"' then some ([], rest)
    else if c = '\\' then
      match rest with
      | [] => none
      | e :: rest2 =>
        if e = 'u' then
          match rest2 with
          | h1 :: h2 :: h3 :: h4 :: rest3 =>
            consFst
              (Char.ofNat
                (hexVal h1 * 4096 + hexVal h2 * 256 + hexVal h3 * 16 + hexVal h4))
              (parseStringChars rest3)
          | _ => none
        else
          match decodeEscape e with
          | some d => consFst d (parseStringChars rest2)
          | none => none
    else consFst c (parseStringChars rest)

/-- Consumes a run of decimal digits into an accumulator; stops at the
first non-digit. -/
def parseNatAux : List Char → Nat → Nat × List Char
  | [], acc => (acc, [])
  | c :: cs, acc =>
    if c.isDigit then parseNatAux cs (acc * 10 + (c.toNat - 48))
    else (acc, c :: cs)

/-- Parses a JSON number of the integer shape the write path produces
(a nonempty run of decimal digits). -/
def parseNatChars : List Char → Option (Nat × List Char)
  | [] => none
  | c :: cs => if c.isDigit then some (parseNatAux cs (c.toNat - 48)) else none

/-- Parses a JSON boolean literal. -/
def parseBoolChars : List Char → Option (Bool × List Char)
  | 't' :: 'r' :: 'u' :: 'e' :: rest => some (true, rest)
  | 'f' :: 'a' :: 'l' :: 's' :: 'e' :: rest => some (false, rest)
  | _ => none

/-- Consumes an expected literal prefix. -/
def expectChars : List Char → List Char → Option (List Char)
  | [], s => some s
  | _ :: _, [] => none
  | c :: cs, d :: ds => if c = d then expectChars cs ds else none

/-- Parses one record object of the persisted shape
`\x7b"title":` string `,"id":` digits `,"completed":` bool `\x7d`. -/
def parseTodoObj (s : List Char) : Option (Todo × List Char) := do
  let s1 ← expectChars ('{' :: (titleKeyChars ++ ['"'])) s
  let (titleCs, s2) ← parseStringChars s1
  let s3 ← expectChars idKeyChars s2
  let (idv, s4) ← parseNatChars s3
  let s5 ← expectChars completedKeyChars s4
  let (b, s6) ← parseBoolChars s5
  let s7 ← expectChars ['}'] s6
  pure (⟨idv, String.mk titleCs, b⟩, s7)

/-- Parses the comma-separated record objects of a nonempty array, up to
and including the closing bracket.  The fuel argument bounds the number
of records; the caller passes the length of the input, which always
suffices because every record object occupies at least one character. -/
def parseItemsAux : Nat → List Char → Option (List Todo × List Char)
  | 0, _ => none
  | fuel + 1, s =>
    match parseTodoObj s with
    | none => none
    | some (t, rest) =>
      match rest with
      | ']' :: rest2 => some ([t], rest2)
      | ',' :: rest2 =>
        match parseItemsAux fuel rest2 with
        | some (ts, rest3) => some (t :: ts, rest3)
        | none => none
      | _ => none

/-- `JSON.parse` of a persisted blob, restricted to the array-of-records
sub-grammar the write path produces: the read path of
`getLocalStorage`. -/
def parseTodos (s : String) : Option (List Todo) :=
  match s.data with
  | '[' :: rest =>
    if rest = [']'] then some []
    else
      match parseItemsAux rest.length rest with
      | some (ts, rest2) => if rest2 = [] then some ts else none
      | none => none
  | _ => none

/-! ## Helper lemmas -/

lemma addTodo_valid_eq (title : String) (now : Nat) (todos : List Todo)
    (ht : (jsTrim title.data).length ≠ 0) :
    addTodo title now todos =
      (Except.ok ⟨now, title, false⟩, todos ++ [⟨now, title, false⟩]) := by
  simp [addTodo, ht]

lemma updateFirst_none (u : Update) (todos : List Todo) :
    (∀ t ∈ todos, t.id ≠ u.id) → updateFirst u todos = none := by
  induction todos with
  | nil => intro _; rfl
  | cons t ts ih =>
    intro h
    have ht : ¬ t.id = u.id := h t (List.mem_cons_self t ts)
    have hts := ih (fun x hx => h x (List.mem_cons_of_mem t hx))
    simp [updateFirst, ht, hts]

lemma updateFirst_at (u : Update) (todos : List Todo) :
    ∀ (j : Nat) (hj : j < todos.length),
      (todos.map Todo.id).Nodup → (todos.get ⟨j, hj⟩).id = u.id →
      updateFirst u todos =
        some (mergeUpdate u (todos.get ⟨j, hj⟩),
          todos.set j (mergeUpdate u (todos.get ⟨j, hj⟩))) := by
  induction todos with
  | nil => intro j hj; exact absurd hj (by simp)
  | cons t ts ih =>
    intro j hj hnd hid
    cases j with
    | zero =>
      simp only [List.get] at hid
      simp [updateFirst, hid]
    | succ k =>
      simp only [List.get] at hid
      have hk : k < ts.length := by
        simpa using Nat.lt_of_succ_lt_succ hj
      have hmem : u.id ∈ ts.map Todo.id := by
        rw [← hid]
        exact List.mem_map_of_mem Todo.id (ts.get_mem _ _)
      have hnd2 : (ts.map Todo.id).Nodup ∧ t.id ∉ ts.map Todo.id := by
        have := hnd
        simp only [List.map_cons, List.nodup_cons] at this
        exact ⟨this.2, this.1⟩
      have ht : ¬ t.id = u.id := fun he => hnd2.2 (he ▸ hmem)
      have := ih k hk hnd2.1 hid
      simp [updateFirst, ht, this]

lemma updateFirst_shape (u : Update) (todos : List Todo) :
    ∀ item rest, updateFirst u todos = some (item, rest) →
      (∃ t0 ∈ todos, item = mergeUpdate u t0) ∧
      ∀ x ∈ rest, x = item ∨ x ∈ todos := by
  induction todos with
  | nil => intro item rest h; exact absurd h (by simp [updateFirst])
  | cons t ts ih =>
    intro item rest h
    by_cases ht : t.id = u.id
    · simp only [updateFirst, if_pos ht] at h
      obtain ⟨h1, h2⟩ := Prod.mk.injEq .. ▸ Option.some.injEq .. ▸ h
      refine ⟨⟨t, List.mem_cons_self t ts, h1.symm⟩, ?_⟩
      intro x hx
      rw [← h2] at hx
      rcases List.mem_cons.mp hx with hx | hx
      · exact Or.inl (hx.trans h1.symm.symm ▸ by rw [hx, h1])
      · exact Or.inr (List.mem_cons_of_mem t hx)
    · simp only [updateFirst, if_neg ht] at h
      cases hrec : updateFirst u ts with
      | none => rw [hrec] at h; exact absurd h (by simp)
      | some pr =>
        obtain ⟨i2, r2⟩ := pr
        rw [hrec] at h
        simp only [Option.some.injEq, Prod.mk.injEq] at h
        obtain ⟨h1, h2⟩ := h
        obtain ⟨⟨t0, ht0, he⟩, hall⟩ := ih i2 r2 hrec
        refine ⟨⟨t0, List.mem_cons_of_mem t ht0, h1 ▸ he⟩, ?_⟩
        intro x hx
        rw [← h2] at hx
        rcases List.mem_cons.mp hx with hx | hx
        · exact Or.inr (hx ▸ List.mem_cons_self t ts)
        · rcases hall x hx with hx2 | hx2
          · exact Or.inl (h1 ▸ hx2)
          · exact Or.inr (List.mem_cons_of_mem t hx2)

lemma find_none_eq (todos : List Todo) : find none todos = todos :=
  List.filter_eq_self.mpr (fun _ _ => rfl)

lemma foldl_count (l : List Todo) :
    ∀ acc : Nat,
      l.foldl (fun acc t => if t.completed then acc + 1 else acc) acc =
        acc + (l.filter (fun t => t.completed)).length := by
  induction l with
  | nil => intro acc; simp
  | cons t ts ih =>
    intro acc
    by_cases hc : t.completed
    · simp [List.foldl_cons, hc, ih, Nat.add_assoc, Nat.add_comm 1]
    · simp [List.foldl_cons, hc, ih]

/-! ## Serialization lemmas -/

lemma expectChars_append (lit rest : List Char) :
    expectChars lit (lit ++ rest) = some rest := by
  induction lit with
  | nil => rfl
  | cons c cs ih => simp [expectChars, ih]

lemma digitChar_isDigit : ∀ d, d < 10 → (digitChar d).isDigit = true := by decide

lemma digitChar_toNat : ∀ d, d < 10 → (digitChar d).toNat - 48 = d := by decide

lemma hexVal_hexChar : ∀ d, d < 16 → hexVal (hexChar d) = d := by decide

lemma parseNatAux_digits (l : List Nat) :
    ∀ (acc : Nat) (rest : List Char),
      (∀ d ∈ l, d < 10) →
      (∀ c, rest.head? = some c → c.isDigit = false) →
      parseNatAux (l.map digitChar ++ rest) acc =
        (acc * 10 ^ l.length + Nat.ofDigits 10 l.reverse, rest) := by
  induction l with
  | nil =>
    intro acc rest _ hrest
    cases rest with
    | nil => simp [parseNatAux]
    | cons c cs =>
      have hc := hrest c rfl
      simp [parseNatAux, hc]
  | cons d l ih =>
    intro acc rest hd hrest
    have hd0 : d < 10 := hd d (List.mem_cons_self d l)
    have h1 : (digitChar d).isDigit = true := digitChar_isDigit d hd0
    have h2 : (digitChar d).toNat - 48 = d := digitChar_toNat d hd0
    have h3 := ih (acc * 10 + d) rest (fun x hx => hd x (List.mem_cons_of_mem d hx)) hrest
    simp only [List.map_cons, List.cons_append, parseNatAux, h1, if_true, h2,
      List.append_eq, h3, List.reverse_cons, Nat.ofDigits_append,
      Nat.ofDigits_singleton, List.length_reverse, List.length_cons,
      Prod.mk.injEq, and_true]
    ring

lemma natToCharsAux_digits :
    ∀ (fuel n : Nat) (acc : List Char), 0 < n → n < 10 ^ fuel →
      natToCharsAux fuel n acc = ((Nat.digits 10 n).map digitChar).reverse ++ acc := by
  intro fuel
  induction fuel with
  | zero => intro n acc h0 h1; simp at h1; omega
  | succ f ih =>
    intro n acc h0 h1
    by_cases hlt : n < 10
    · have hds : Nat.digits 10 n = [n] := by
        rw [Nat.digits_def' (by norm_num : (1 : Nat) < 10) h0,
          Nat.mod_eq_of_lt hlt, Nat.div_eq_of_lt hlt]
        simp
      simp [natToCharsAux, hlt, hds]
    · have h2 : 0 < n / 10 := Nat.div_pos (Nat.le_of_not_lt hlt) (by norm_num)
      have h3 : n / 10 < 10 ^ f := by
        rw [Nat.div_lt_iff_lt_mul (by norm_num : (0 : Nat) < 10)]
        calc n < 10 ^ (f + 1) := h1
        _ = 10 ^ f * 10 := by ring
      have h4 := ih (n / 10) (digitChar (n % 10) :: acc) h2 h3
      have hds : Nat.digits 10 n = n % 10 :: Nat.digits 10 (n / 10) :=
        Nat.digits_def' (by norm_num : (1 : Nat) < 10) h0
      simp [natToCharsAux, hlt, h4, hds, List.reverse_cons, List.append_assoc]

lemma natToChars_parse (n : Nat) (rest : List Char)
    (hrest : ∀ c, rest.head? = some c → c.isDigit = false) :
    parseNatChars (natToChars n ++ rest) = some (n, rest) := by
  rcases Nat.eq_zero_or_pos n with rfl | hn
  · have h0 := parseNatAux_digits [] 0 rest (by simp) hrest
    simp only [List.map_nil, List.nil_append, List.length_nil, pow_zero, Nat.mul_one,
      List.reverse_nil, Nat.ofDigits_nil, Nat.add_zero] at h0
    have e : natToChars 0 ++ rest = digitChar 0 :: rest := rfl
    rw [e]
    simp [parseNatChars, digitChar_isDigit 0 (by norm_num),
      digitChar_toNat 0 (by norm_num), h0]
  · have hbound : n < 10 ^ (n + 1) :=
      lt_of_lt_of_le (Nat.lt_pow_self (by norm_num) n)
        (Nat.pow_le_pow_right (by norm_num) (Nat.le_succ n))
    have e : natToChars n = ((Nat.digits 10 n).map digitChar).reverse := by
      have := natToCharsAux_digits (n + 1) n [] hn hbound
      simpa [natToChars] using this
    have hlt : ∀ d ∈ Nat.digits 10 n, d < 10 :=
      fun d hd => Nat.digits_lt_base (by norm_num) hd
    have hne : Nat.digits 10 n ≠ [] :=
      Nat.digits_ne_nil_iff_ne_zero.mpr (Nat.pos_iff_ne_zero.mp hn)
    obtain ⟨d, l, hds⟩ : ∃ d l, (Nat.digits 10 n).reverse = d :: l := by
      cases h : (Nat.digits 10 n).reverse with
      | nil => exact absurd (by simpa using congrArg List.reverse h) hne
      | cons d l => exact ⟨d, l, rfl⟩
    have hmemrev : ∀ x ∈ (Nat.digits 10 n).reverse, x < 10 :=
      fun x hx => hlt x (List.mem_reverse.mp hx)
    have hd0 : d < 10 := hmemrev d (hds ▸ List.mem_cons_self d l)
    have hl : ∀ x ∈ l, x < 10 := fun x hx => hmemrev x (hds ▸ List.mem_cons_of_mem d hx)
    have e2 : natToChars n = (d :: l).map digitChar := by
      rw [e, ← List.map_reverse, hds]
    have h5 := parseNatAux_digits l d rest hl hrest
    have hofd : Nat.ofDigits 10 (Nat.digits 10 n) = n := Nat.ofDigits_digits 10 n
    have hn2 : d * 10 ^ l.length + Nat.ofDigits 10 l.reverse = n := by
      have hds2 : Nat.digits 10 n = l.reverse ++ [d] := by
        have := congrArg List.reverse hds
        simpa [List.reverse_cons] using this
      rw [hds2, Nat.ofDigits_append, Nat.ofDigits_singleton, List.length_reverse,
        Nat.mul_comm (10 ^ l.length) d] at hofd
      omega
    rw [e2]
    simp [parseNatChars, digitChar_isDigit d hd0, digitChar_toNat d hd0, h5, hn2]

lemma parseBoolChars_boolChars (b : Bool) (rest : List Char) :
    parseBoolChars (boolChars b ++ rest) = some (b, rest) := by
  cases b <;> rfl

lemma parse_cons_plain (c : Char) (h1 : ¬ c = '"') (h2 : ¬ c = '\\')
    (s : List Char) :
    parseStringChars (c :: s) = consFst c (parseStringChars s) := by
  rw [parseStringChars.eq_def]
  simp [h1, h2]

lemma parse_cons_escape (e d : Char) (he : ¬ e = 'u') (hd : decodeEscape e = some d)
    (s : List Char) :
    parseStringChars ('\\' :: e :: s) = consFst d (parseStringChars s) := by
  have hq : ¬ ('\\' : Char) = '"' := by decide
  rw [parseStringChars.eq_def]
  simp [hq, he, hd]

lemma parse_cons_u (h1 h2 h3 h4 : Char) (s : List Char) :
    parseStringChars ('\\' :: 'u' :: h1 :: h2 :: h3 :: h4 :: s) =
      consFst
        (Char.ofNat (hexVal h1 * 4096 + hexVal h2 * 256 + hexVal h3 * 16 + hexVal h4))
        (parseStringChars s) := by
  have hq : ¬ ('\\' : Char) = '"' := by decide
  rw [parseStringChars.eq_def]
  simp [hq]

lemma parseStringChars_escape (cs : List Char) :
    ∀ rest : List Char,
      parseStringChars (escapeChars cs ++ ('"' :: rest)) = some (cs, rest) := by
  induction cs with
  | nil =>
    intro rest
    rw [show escapeChars [] ++ ('"' :: rest) = '"' :: rest from rfl,
      parseStringChars.eq_def]
    simp
  | cons c cs ih =>
    intro rest
    simp only [escapeChars, List.append_assoc]
    by_cases h1 : c = '"'
    · subst h1
      rw [show escapeChar '"' = ['\\', '"'] from rfl]
      simp only [List.cons_append, List.nil_append]
      rw [parse_cons_escape '"' '"' (by decide) (by decide) _, ih rest]
      rfl
    · by_cases h2 : c = '\\'
      · subst h2
        rw [show escapeChar '\\' = ['\\', '\\'] from rfl]
        simp only [List.cons_append, List.nil_append]
        rw [parse_cons_escape '\\' '\\' (by decide) (by decide) _, ih rest]
        rfl
      · by_cases h3 : c = Char.ofNat 8
        · subst h3
          rw [show escapeChar (Char.ofNat 8) = ['\\', 'b'] from rfl]
          simp only [List.cons_append, List.nil_append]
          rw [parse_cons_escape 'b' (Char.ofNat 8) (by decide) (by decide) _, ih rest]
          rfl
        · by_cases h4 : c = Char.ofNat 9
          · subst h4
            rw [show escapeChar (Char.ofNat 9) = ['\\', 't'] from rfl]
            simp only [List.cons_append, List.nil_append]
            rw [parse_cons_escape 't' (Char.ofNat 9) (by decide) (by decide) _, ih rest]
            rfl
          · by_cases h5 : c = Char.ofNat 10
            · subst h5
              rw [show escapeChar (Char.ofNat 10) = ['\\', 'n'] from rfl]
              simp only [List.cons_append, List.nil_append]
              rw [parse_cons_escape 'n' (Char.ofNat 10) (by decide) (by decide) _,
                ih rest]
              rfl
            · by_cases h6 : c = Char.ofNat 12
              · subst h6
                rw [show escapeChar (Char.ofNat 12) = ['\\', 'f'] from rfl]
                simp only [List.cons_append, List.nil_append]
                rw [parse_cons_escape 'f' (Char.ofNat 12) (by decide) (by decide) _,
                  ih rest]
                rfl
              · by_cases h7 : c = Char.ofNat 13
                · subst h7
                  rw [show escapeChar (Char.ofNat 13) = ['\\', 'r'] from rfl]
                  simp only [List.cons_append, List.nil_append]
                  rw [parse_cons_escape 'r' (Char.ofNat 13) (by decide) (by decide) _,
                    ih rest]
                  rfl
                · by_cases h8 : c.toNat < 32
                  · rw [show escapeChar c =
                        ['\\', 'u', '0', '0', hexChar (c.toNat / 16),
                          hexChar (c.toNat % 16)] from by
                      simp [escapeChar, h1, h2, h3, h4, h5, h6, h7, h8]]
                    simp only [List.cons_append, List.nil_append]
                    rw [parse_cons_u _ _ _ _ _, ih rest]
                    have hdiv : c.toNat / 16 < 16 := by omega
                    have hmod : c.toNat % 16 < 16 := by omega
                    rw [hexVal_hexChar _ hdiv, hexVal_hexChar _ hmod]
                    rw [show hexVal '0' * 4096 + hexVal '0' * 256 +
                        c.toNat / 16 * 16 + c.toNat % 16 = c.toNat from by
                      have h0 : hexVal '0' = 0 := rfl
                      rw [h0]
                      omega]
                    rw [Char.ofNat_toNat c]
                    rfl
                  · rw [show escapeChar c = [c] from by
                      simp [escapeChar, h1, h2, h3, h4, h5, h6, h7, h8]]
                    simp only [List.cons_append, List.nil_append]
                    rw [parse_cons_plain c h1 h2 _, ih rest]
                    rfl

lemma parseTodoObj_serialize (t : Todo) (rest : List Char) :
    parseTodoObj (serializeTodo t ++ rest) = some (t, rest) := by
  have e1 : serializeTodo t ++ rest =
      ('{' :: (titleKeyChars ++ ['"'])) ++
        (escapeChars t.title.data ++
          ('"' :: (idKeyChars ++
            (natToChars t.id ++
              (completedKeyChars ++
                (boolChars t.completed ++ ('}' :: rest))))))) := by
    simp [serializeTodo, quoteChars]
  have hnd : ∀ c : Char,
      (completedKeyChars ++ (boolChars t.completed ++ ('}' :: rest))).head? =
          some c → c.isDigit = false := by
    intro c hc
    have hc2 : some ',' = some c := hc
    obtain rfl : ',' = c := Option.some.inj hc2
    decide
  rw [e1]
  unfold parseTodoObj
  rw [expectChars_append]
  simp only [Option.bind_eq_bind, Option.some_bind]
  rw [parseStringChars_escape]
  simp only [Option.some_bind]
  rw [expectChars_append]
  simp only [Option.some_bind]
  rw [natToChars_parse _ _ hnd]
  simp only [Option.some_bind]
  rw [expectChars_append]
  simp only [Option.some_bind]
  rw [parseBoolChars_boolChars]
  simp only [Option.some_bind]
  rw [show ('}' :: rest) = ['}'] ++ rest from rfl, expectChars_append]
  simp only [Option.some_bind]
  rfl

lemma length_le_serializeItems (todos : List Todo) :
    todos.length ≤ (serializeItems todos).length := by
  induction todos with
  | nil => simp [serializeItems]
  | cons t ts ih =>
    have h1 : 1 ≤ (serializeTodo t).length := by
      simp [serializeTodo]
    simp only [serializeItems, List.length_cons, List.length_append]
    omega

lemma parseItemsAux_serialize (todos : List Todo) :
    ∀ (fuel : Nat) (rest : List Char), todos ≠ [] → todos.length ≤ fuel →
      parseItemsAux fuel (serializeItems todos ++ (']' :: rest)) =
        some (todos, rest) := by
  induction todos with
  | nil => intro fuel rest hne; exact absurd rfl hne
  | cons t ts ih =>
    intro fuel rest _ hlen
    cases fuel with
    | zero => simp at hlen
    | succ f =>
      cases ts with
      | nil =>
        have e : serializeItems [t] ++ (']' :: rest) =
            serializeTodo t ++ (']' :: rest) := by
          simp [serializeItems]
        rw [e]
        simp only [parseItemsAux]
        rw [parseTodoObj_serialize t (']' :: rest)]
        rfl
      | cons t2 ts2 =>
        have e : serializeItems (t :: t2 :: ts2) ++ (']' :: rest) =
            serializeTodo t ++
              (',' :: (serializeItems (t2 :: ts2) ++ (']' :: rest))) := by
          simp [serializeItems]
        have hlen2 : (t2 :: ts2).length ≤ f := by
          simp only [List.length_cons] at hlen ⊢
          omega
        have hrec := ih f rest (by simp) hlen2
        rw [e]
        simp only [parseItemsAux]
        rw [parseTodoObj_serialize t (',' :: (serializeItems (t2 :: ts2) ++ (']' :: rest)))]
        show (match parseItemsAux f (serializeItems (t2 :: ts2) ++ (']' :: rest)) with
          | some (ts3, rest3) => some (t :: ts3, rest3)
          | none => none) = some (t :: t2 :: ts2, rest)
        rw [hrec]

/-! ## Claims -/

/-- C1: for every title that is non-empty after trimming, `addTodo`
resolves with a record whose `completed` field is `false` and whose `id`
is the (fresh) `Date.now()` value, appends that record at the end of the
collection leaving all previously stored records unchanged and in their
original order, and — when the new id does not already occur — keeps the
ids of the store unique. -/
theorem addTodo_appends_fresh (title : String) (now : Nat) (todos : List Todo)
    (ht : (jsTrim title.data).length ≠ 0) (hfresh : now ∉ todos.map Todo.id)
    (hnd : (todos.map Todo.id).Nodup) :
    addTodo title now todos =
      (Except.ok ⟨now, title, false⟩, todos ++ [⟨now, title, false⟩]) ∧
    ((todos ++ [(⟨now, title, false⟩ : Todo)]).map Todo.id).Nodup := by
  refine ⟨addTodo_valid_eq title now todos ht, ?_⟩
  simp [List.nodup_append, hnd, hfresh, List.disjoint_singleton]

theorem addTodo_appends_fresh_witness :
    ((jsTrim "A".data).length ≠ 0 ∧ (7 : Nat) ∉ [(1 : Nat)] ∧
      ([(1 : Nat)] : List Nat).Nodup) ∧
    (addTodo "A" 7 [⟨1, "B", false⟩] =
      (Except.ok ⟨7, "A", false⟩, [⟨1, "B", false⟩] ++ [⟨7, "A", false⟩]) ∧
    (([(⟨1, "B", false⟩ : Todo)] ++ [(⟨7, "A", false⟩ : Todo)]).map Todo.id).Nodup) :=
  ⟨by decide,
    addTodo_appends_fresh "A" 7 [⟨1, "B", false⟩] (by decide) (by decide) (by decide)⟩

/-- C2 counterexample: `updateTodo` performs no title validation, so an
update carrying an empty `title` persists an empty title: the invariant
holds of the collection before the call and fails after it. -/
theorem updateTodo_title_invariant_cex :
    titlesValid [⟨1, "A", false⟩] ∧
    ¬ titlesValid (updateTodo ⟨1, some "", none⟩ [⟨1, "A", false⟩]).2 := by
  decide

/-- C2 (amended): `addTodo` and `removeTodo` preserve the invariant that
no persisted record has an empty or whitespace-only title; `updateTodo`
preserves it provided the update's `title` field, when present, is
non-empty after trimming. -/
theorem storage_ops_preserve_titlesValid (todos : List Todo) (title : String)
    (now i : Nat) (u : Update) (h : titlesValid todos)
    (hu : ∀ s, u.title = some s → (jsTrim s.data).length ≠ 0) :
    titlesValid (addTodo title now todos).2 ∧
    titlesValid (removeTodo i todos) ∧
    titlesValid (updateTodo u todos).2 := by
  refine ⟨?_, ?_, ?_⟩
  · by_cases hc : (jsTrim title.data).length = 0
    · simpa [addTodo, hc] using h
    · rw [addTodo_valid_eq title now todos hc]
      intro x hx
      rcases List.mem_append.mp hx with hx | hx
      · exact h x hx
      · rcases List.mem_singleton.mp hx with rfl
        exact hc
  · intro x hx
    exact h x (List.mem_filter.mp hx).1
  · cases hf : updateFirst u todos with
    | none => simpa [updateTodo, hf] using h
    | some pr =>
      obtain ⟨item, rest⟩ := pr
      obtain ⟨⟨t0, ht0, he⟩, hall⟩ := updateFirst_shape u todos item rest hf
      simp only [updateTodo, hf]
      intro x hx
      rcases hall x hx with rfl | hx2
      · rw [he]
        cases hti : u.title with
        | none => simpa [mergeUpdate, hti] using h t0 ht0
        | some s => simpa [mergeUpdate, hti] using hu s hti
      · exact h x hx2

theorem storage_ops_preserve_titlesValid_witness :
    titlesValid [⟨1, "A", false⟩] ∧
    (titlesValid (addTodo "C" 9 [⟨1, "A", false⟩]).2 ∧
    titlesValid (removeTodo 1 [⟨1, "A", false⟩]) ∧
    titlesValid (updateTodo ⟨1, none, some true⟩ [⟨1, "A", false⟩]).2) :=
  ⟨by decide,
    storage_ops_preserve_titlesValid [⟨1, "A", false⟩] "C" 9 1
      ⟨1, none, some true⟩ (by decide) (by intro s hs; cases hs)⟩

/-- C3: when no record has the given id, `updateTodo` rejects with the
update object and the persisted collection is exactly the same as
before the call. -/
theorem updateTodo_not_found (u : Update) (todos : List Todo)
    (h : ∀ t ∈ todos, t.id ≠ u.id) :
    updateTodo u todos = (Except.error u, todos) := by
  simp [updateTodo, updateFirst_none u todos h]

theorem updateTodo_not_found_witness :
    (∀ t ∈ [(⟨1, "A", false⟩ : Todo)], t.id ≠ 3) ∧
    updateTodo ⟨3, none, some true⟩ [⟨1, "A", false⟩] =
      (Except.error ⟨3, none, some true⟩, [⟨1, "A", false⟩]) :=
  ⟨by decide, updateTodo_not_found ⟨3, none, some true⟩ [⟨1, "A", false⟩] (by decide)⟩

/-- C4: for every title that is empty or whitespace-only after trimming,
`addTodo` throws the validation error and the persisted collection is
exactly the same as before the call. -/
theorem addTodo_rejects_blank (title : String) (now : Nat) (todos : List Todo)
    (ht : (jsTrim title.data).length = 0) :
    addTodo title now todos = (Except.error addTodoError, todos) := by
  simp [addTodo, ht]

theorem addTodo_rejects_blank_witness :
    ((jsTrim "   ".data).length = 0 ∧ (jsTrim "".data).length = 0) ∧
    addTodo "   " 5 [⟨1, "A", false⟩] = (Except.error addTodoError, [⟨1, "A", false⟩]) ∧
    addTodo "" 5 [⟨1, "A", false⟩] = (Except.error addTodoError, [⟨1, "A", false⟩]) :=
  ⟨by decide,
    addTodo_rejects_blank "   " 5 [⟨1, "A", false⟩] (by decide),
    addTodo_rejects_blank "" 5 [⟨1, "A", false⟩] (by decide)⟩

/-- C5: for an id present in a collection with unique ids, updating with
`\x7b id, completed: true \x7d` resolves with the matched record whose
`completed` is set to `true`, whose `title` and `id` are unchanged, and
replaces only position `j` of the collection, leaving every other record
unchanged and in the same position. -/
theorem updateTodo_merges_completed (todos : List Todo) (i j : Nat)
    (hj : j < todos.length) (hnd : (todos.map Todo.id).Nodup)
    (hid : (todos.get ⟨j, hj⟩).id = i) :
    updateTodo ⟨i, none, some true⟩ todos =
      (Except.ok ⟨i, (todos.get ⟨j, hj⟩).title, true⟩,
        todos.set j ⟨i, (todos.get ⟨j, hj⟩).title, true⟩) := by
  have h := updateFirst_at ⟨i, none, some true⟩ todos j hj hnd hid
  simp only [updateTodo, h, mergeUpdate, Option.getD]

theorem updateTodo_merges_completed_witness :
    ((1 : Nat) < 2 ∧
      (([⟨1, "A", false⟩, ⟨2, "B", false⟩] : List Todo).map Todo.id).Nodup) ∧
    updateTodo ⟨2, none, some true⟩ [⟨1, "A", false⟩, ⟨2, "B", false⟩] =
      (Except.ok ⟨2, "B", true⟩, [⟨1, "A", false⟩, ⟨2, "B", true⟩]) :=
  ⟨by decide,
    updateTodo_merges_completed [⟨1, "A", false⟩, ⟨2, "B", false⟩] 2 1
      (by decide) (by decide) (by decide)⟩

/-- C6: when no record has the given id, `removeTodo` resolves (the
operation never rejects) and the collection afterwards has the same
length and the same records as before the call. -/
theorem removeTodo_absent_noop (i : Nat) (todos : List Todo)
    (h : ∀ t ∈ todos, t.id ≠ i) :
    removeTodo i todos = todos := by
  apply List.filter_eq_self.mpr
  intro a ha
  simpa [bne_iff_ne] using h a ha

theorem removeTodo_absent_noop_witness :
    (∀ t ∈ [(⟨1, "A", false⟩ : Todo), ⟨2, "B", true⟩], t.id ≠ 9) ∧
    removeTodo 9 [⟨1, "A", false⟩, ⟨2, "B", true⟩] = [⟨1, "A", false⟩, ⟨2, "B", true⟩] :=
  ⟨by decide, removeTodo_absent_noop 9 [⟨1, "A", false⟩, ⟨2, "B", true⟩] (by decide)⟩

/-- C7: `find` returns exactly the filtered collection — every record
for which each field named in the criteria equals the criteria's value,
with multiplicity, in the collection's insertion order (a sublist of the
collection) — and `find` with no criteria returns all records. -/
theorem find_exact_match (q : Query) (todos : List Todo) :
    find (some q) todos =
      todos.filter (fun t => decide ((∀ v ∈ q.id, t.id = v) ∧
        (∀ v ∈ q.title, t.title = v) ∧ (∀ v ∈ q.completed, t.completed = v))) ∧
    (find (some q) todos).Sublist todos ∧
    (∀ t, t ∈ find (some q) todos ↔ t ∈ todos ∧
      (∀ v, q.id = some v → t.id = v) ∧
      (∀ v, q.title = some v → t.title = v) ∧
      (∀ v, q.completed = some v → t.completed = v)) ∧
    find none todos = todos := by
  refine ⟨List.filter_congr ?_, List.filter_sublist _, ?_, find_none_eq todos⟩
  · intro x _
    apply Bool.eq_iff_iff.mpr
    obtain ⟨qi, qt, qc⟩ := q
    cases qi <;> cases qt <;> cases qc <;> (simp [matchesQuery]; try tauto)
  · intro t
    obtain ⟨qi, qt, qc⟩ := q
    cases qi <;> cases qt <;> cases qc <;>
      (simp [find, List.mem_filter, matchesQuery]; try tauto)

/-- C8: `count` returns the collection's length as `total`, the number
of records with `completed = true` as `completed`, and their difference
as `active`; and after adding "A" and "B" to an empty store and marking
the record of "A" completed, it returns
`\x7b total: 2, active: 1, completed: 1 \x7d`. -/
theorem count_scan (todos : List Todo) (n1 n2 : Nat) (hne : n1 ≠ n2) :
    (count todos).total = todos.length ∧
    (count todos).completed = (todos.filter (fun t => t.completed)).length ∧
    (count todos).active =
      todos.length - (todos.filter (fun t => t.completed)).length ∧
    count (updateTodo ⟨n1, none, some true⟩
      (addTodo "B" n2 (addTodo "A" n1 []).2).2).2 = ⟨2, 1, 1⟩ := by
  have hA : (jsTrim "A".data).length ≠ 0 := by decide
  have hB : (jsTrim "B".data).length ≠ 0 := by decide
  have e1 : (addTodo "A" n1 []).2 = [⟨n1, "A", false⟩] := by
    rw [addTodo_valid_eq "A" n1 [] hA]
    rfl
  have e2 : (addTodo "B" n2 [⟨n1, "A", false⟩]).2 =
      [⟨n1, "A", false⟩, ⟨n2, "B", false⟩] := by
    rw [addTodo_valid_eq "B" n2 [⟨n1, "A", false⟩] hB]
    rfl
  refine ⟨?_, ?_, ?_, ?_⟩
  · simp [count, find_none_eq]
  · simp [count, find_none_eq, foldl_count]
  · simp [count, find_none_eq, foldl_count]
  · rw [e1, e2]
    simp [updateTodo, updateFirst, mergeUpdate, count, find_none_eq, foldl_count]

theorem count_scan_witness :
    ((1 : Nat) ≠ 2) ∧
    ((count [⟨5, "E", true⟩]).total = 1 ∧
    (count [⟨5, "E", true⟩]).completed = 1 ∧
    (count [⟨5, "E", true⟩]).active = 1 - 1 ∧
    count (updateTodo ⟨1, none, some true⟩
      (addTodo "B" 2 (addTodo "A" 1 []).2).2).2 = ⟨2, 1, 1⟩) :=
  ⟨by decide, by
    have h := count_scan [⟨5, "E", true⟩] 1 2 (by decide)
    simpa using h⟩

/-- C9: serializing a collection of records through the adapter's write
path (`JSON.stringify` in `setLocalStorage`) and deserializing it through
the read path (`JSON.parse` in `getLocalStorage`) yields exactly the same
ordered sequence of records: same length, same field values, same
order. -/
theorem serialize_parse_roundtrip (todos : List Todo) :
    parseTodos (serializeTodos todos) = some todos := by
  cases todos with
  | nil => rfl
  | cons t ts =>
    have hlen1 : 1 ≤ (serializeItems (t :: ts)).length :=
      le_trans (by simp) (length_le_serializeItems (t :: ts))
    have hne2 : ¬ (serializeItems (t :: ts) ++ [']'] = [']']) := by
      intro h
      have := congrArg List.length h
      simp only [List.length_append, List.length_cons, List.length_nil] at this
      omega
    have hlen : (t :: ts).length ≤ (serializeItems (t :: ts) ++ [']']).length := by
      have h := length_le_serializeItems (t :: ts)
      simp only [List.length_append, List.length_cons, List.length_nil] at h ⊢
      omega
    show parseTodos (String.mk ('[' :: (serializeItems (t :: ts) ++ [']']))) =
      some (t :: ts)
    rw [parseTodos.eq_def]
    show (if serializeItems (t :: ts) ++ [']'] = [']'] then some [] else
      match parseItemsAux (serializeItems (t :: ts) ++ [']']).length
          (serializeItems (t :: ts) ++ [']']) with
      | some (ts2, rest2) => if rest2 = [] then some ts2 else none
      | none => none) = some (t :: ts)
    rw [if_neg hne2,
      parseItemsAux_serialize (t :: ts) (serializeItems (t :: ts) ++ [']']).length
        [] (by simp) hlen]
    rfl

/-- C10: `removeTodo` equals filtering the collection by `id ≠` the
given id: it removes every record whose id equals the given one (all of
them when ids are duplicated) and keeps the remaining records in their
relative order. -/
theorem removeTodo_removes_all (i : Nat) (todos : List Todo) :
    removeTodo i todos = todos.filter (fun t => decide (¬ t.id = i)) ∧
    (removeTodo i todos).Sublist todos ∧
    (∀ t, t ∈ removeTodo i todos ↔ t ∈ todos ∧ t.id ≠ i) := by
  refine ⟨List.filter_congr ?_, List.filter_sublist _, ?_⟩
  · intro x _
    exact Bool.eq_iff_iff.mpr (by simp [bne_iff_ne])
  · intro t
    simp [removeTodo, List.mem_filter, bne_iff_ne]

end TodoStorage
